import Mathlib

/-!
A shallow embedding of the chunked file-upload engine found in the
chunk-upload component source (src/unnamed/part_005).  Each definition
translates one function of that source: stateful code is modelled by
explicit state passing, the browser XHR settle outcomes by an explicit
outcome type, and the 500 ms status polling of `checkAllChunksUploaded`
by a list of sampled status vectors.  Sizes, offsets and progress
percentages are natural numbers; the JavaScript `Math.ceil` and
`Math.round` on exact integer ratios are encoded with exact natural
arithmetic as documented at each definition.
-/

namespace ChunkUpload

/-- Status strings of the source, used for both files and chunks:
`waiting`, `uploading`, `success`, `error`. -/
inductive Status
  | waiting
  | uploading
  | success
  | error
  deriving DecidableEq, Repr

/-- One chunk descriptor as built inline in `uploadFile`:
`{ index, start, end: min((index+1)*chunkSize, file.size), progress: 0, status: waiting }`. -/
structure Chunk where
  index : Nat
  start : Nat
  «end» : Nat
  progress : Nat
  status : Status
  deriving DecidableEq, Repr

/-- The browser `File` object fields the source reads:
`name`, `size`, `lastModified`, `type`. -/
structure RawFile where
  name : String
  size : Nat
  lastModified : Nat
  type : String
  deriving DecidableEq, Repr

/-- One entry of `fileList` as pushed by `validateAndAddFiles` and later
mutated by the protocol driver (`identifier`, `uploadId`, `url` are set
during the session, so they carry defaults here). -/
structure FileEntry where
  raw : RawFile
  name : String
  size : Nat
  type : String
  status : Status
  progress : Nat
  chunks : List Chunk
  identifier : String := ""
  uploadId : Option String := none
  url : Option String := none
  deriving DecidableEq, Repr

/-- Events the component emits to the host (`defineEmits` list). -/
inductive UploadEvent
  | fileChange
  | uploadProgress (percent : Nat)
  | uploadSuccess
  | uploadError
  | uploadComplete
  deriving DecidableEq, Repr

/-- Network calls of the three-phase protocol, carrying the chunk-count
fields the source puts in the form data (`chunks` for create,
`chunk_index` for chunk, `total_chunks` for complete). -/
inductive ApiCall
  | create (chunks : Nat)
  | chunk (chunkIndex : Nat)
  | complete (totalChunks : Nat)
  deriving DecidableEq, Repr

/-- Settle outcomes of one chunk XHR: `load` with an HTTP status (the
`onload` handler), a transport error (the `onerror` handler), or an
external `abort()`.  The source installs only `onload` and `onerror`;
no `onabort` handler exists. -/
inductive TransferOutcome
  | load (httpStatus : Nat)
  | netError
  | aborted
  deriving DecidableEq, Repr

/-- The `activeRequests` record: identifier to the array of live XHR
handles (handles abstracted as numbers); a missing key is `none`. -/
abbrev Registry := String → Option (List Nat)

/-- Chunk count of `uploadFile`: `Math.ceil(file.size / chunkSize)`,
encoded exactly over naturals as `(size + chunkSize - 1) / chunkSize`. -/
def chunkCount (size chunkSize : Nat) : Nat :=
  (size + chunkSize - 1) / chunkSize

/-- The chunk list built in `uploadFile`:
`Array(chunks).fill(0).map((_, index) => ({ index, start: index*chunkSize, end: min((index+1)*chunkSize, size), progress: 0, status: waiting }))`. -/
def planChunks (size chunkSize : Nat) : List Chunk :=
  (List.range (chunkCount size chunkSize)).map fun index =>
    { index := index
      start := index * chunkSize
      «end» := min ((index + 1) * chunkSize) size
      progress := 0
      status := Status.waiting }

/-- The identifier of `calculateFileIdentifier`:
name, size and lastModified joined by underscores. -/
def calculateFileIdentifier (f : RawFile) : String :=
  f.name ++ "_" ++ toString f.size ++ "_" ++ toString f.lastModified

/-- The synchronous part of `uploadFile`: set status `uploading`, build
the chunk list from `props.chunkSize` megabytes, compute the
identifier, and initialise the registry entry to an empty array. -/
def uploadFile (chunkSizeMB : Nat) (reg : Registry) (f : FileEntry) :
    Registry × FileEntry :=
  let f2 : FileEntry :=
    { f with
        status := Status.uploading
        chunks := planChunks f.size (chunkSizeMB * 1024 * 1024)
        identifier := calculateFileIdentifier f.raw }
  (fun k => if k = f2.identifier then some [] else reg k, f2)

/-- The chunk reset mapping of `retryUpload`:
every chunk back to `progress: 0, status: waiting`. -/
def chunkResets (chunks : List Chunk) : List Chunk :=
  chunks.map fun c => { c with progress := 0, status := Status.waiting }

/-- `retryUpload`: reset file progress to 0, reset every chunk, then
run `uploadFile` again (which re-plans chunks and leads to a fresh
create call). -/
def retryUpload (chunkSizeMB : Nat) (reg : Registry) (f : FileEntry) :
    Registry × FileEntry :=
  uploadFile chunkSizeMB reg
    { f with progress := 0, chunks := chunkResets f.chunks }

/-- `createUploadTask` response handling: a `none` response is a fetch
transport error (rejected promise); otherwise `response.ok` means HTTP
status in [200, 300) and the body carries `upload_id`. -/
def createUploadTask (resp : Option (Nat × String)) : Except String String :=
  match resp with
  | none => Except.error ("网络错误")
  | some (st, body) =>
      if 200 ≤ st ∧ st < 300 then Except.ok body
      else Except.error ("创建上传任务失败，状态码：" ++ toString st)

/-- The dispatch list of the chunk loop in `uploadChunks`: chunks are
visited in index order and every chunk with status other than `success`
is dispatched. -/
def dispatchList (f : FileEntry) : List Chunk :=
  f.chunks.filter fun c => decide (c.status ≠ Status.success)

/-- The create phase of `uploadChunks`: the create call (whose form
data carries `chunks = file.chunks.length`) is always issued; on a
create failure the catch block sets the file status to `error` and
emits `upload-error` with no chunk call; on success the server
`upload_id` is stored and the chunk calls of the dispatch list follow
the create call. -/
def uploadChunks (f : FileEntry) (resp : Option (Nat × String)) :
    FileEntry × List ApiCall × List UploadEvent :=
  match createUploadTask resp with
  | Except.ok uid =>
      ({ f with uploadId := some uid },
       ApiCall.create f.chunks.length ::
         (dispatchList f).map fun c => ApiCall.chunk c.index,
       [])
  | Except.error _ =>
      ({ f with status := Status.error },
       [ApiCall.create f.chunks.length],
       [UploadEvent.uploadError])

/-- Settle handling of one chunk XHR in `uploadChunk`.  The source
installs `onload` (2xx: status `success`, progress 100; otherwise
status `error`) and `onerror` (status `error`), both of which also
remove the handle from `activeRequests` (the returned boolean).  An
external `abort()` fires the XHR `abort` event for which no handler is
installed, so neither branch runs: the chunk record is untouched and
the handle is not removed by the transfer itself. -/
def uploadChunkSettle (c : Chunk) (out : TransferOutcome) : Chunk × Bool :=
  match out with
  | TransferOutcome.load st =>
      if 200 ≤ st ∧ st < 300 then
        ({ c with status := Status.success, progress := 100 }, true)
      else
        ({ c with status := Status.error }, true)
  | TransferOutcome.netError => ({ c with status := Status.error }, true)
  | TransferOutcome.aborted => (c, false)

/-- The aggregate of `updateFileProgress`:
`Math.round(totalProgress / file.chunks.length)` with
`totalProgress = Σ chunk.progress`.  For naturals `t`, `n` the exact
value `round(t / n) = floor(t / n + 1/2)` equals `(2*t + n) / (2*n)`
in natural division, which is the encoding used here. -/
def fileProgressOf (chunks : List Chunk) : Nat :=
  (2 * (chunks.map fun c => c.progress).sum + chunks.length) /
    (2 * chunks.length)

/-- `updateFileProgress`: recompute the aggregate from the chunk list,
store it on the file and emit `upload-progress` with that value. -/
def updateFileProgress (f : FileEntry) : FileEntry × List UploadEvent :=
  let p := fileProgressOf f.chunks
  ({ f with progress := p }, [UploadEvent.uploadProgress p])

/-- The chunk-progress write of the `xhr.upload.onprogress` handler:
the chunk with the given index gets the new percentage. -/
def setChunkProgress (chunks : List Chunk) (idx pct : Nat) : List Chunk :=
  chunks.map fun c => if c.index = idx then { c with progress := pct } else c

/-- One progress tick: the `onprogress` handler writes the chunk
percentage and then calls `updateFileProgress`, which emits
`upload-progress`. -/
def onProgressTick (f : FileEntry) (idx pct : Nat) :
    FileEntry × List UploadEvent :=
  updateFileProgress { f with chunks := setChunkProgress f.chunks idx pct }

/-- `cancelUpload`: early return unless the file is `uploading`;
otherwise abort every handle stored under the identifier (returned as
the third component), reset that registry slot to an empty array, and
set the file to status `error` with progress 0. -/
def cancelUpload (reg : Registry) (f : FileEntry) :
    Registry × FileEntry × List Nat :=
  if f.status = Status.uploading then
    match reg f.identifier with
    | some handles =>
        (fun k => if k = f.identifier then some [] else reg k,
         { f with status := Status.error, progress := 0 },
         handles)
    | none =>
        (reg, { f with status := Status.error, progress := 0 }, [])
  else
    (reg, f, [])

/-- The merge settle of `mergeChunks`: on an ok response the file gets
status `success`, the returned url, progress 100 and `upload-success`
is emitted; on a failing response or thrown error the catch block sets
status `error` and emits `upload-error`.  (The queue-level
`upload-complete` emission is not modelled here.) -/
def mergeChunksSettle (f : FileEntry) (resp : Option String) :
    FileEntry × List UploadEvent :=
  match resp with
  | some u =>
      ({ f with status := Status.success, url := some u, progress := 100 },
       [UploadEvent.uploadSuccess])
  | none =>
      ({ f with status := Status.error }, [UploadEvent.uploadError])

/-- The complete call of `mergeChunks` carries
`total_chunks = file.chunks.length`. -/
def mergeCall (f : FileEntry) : ApiCall :=
  ApiCall.complete f.chunks.length

/-- Status vector of a file, as sampled by the 500 ms interval of
`checkAllChunksUploaded`. -/
def chunkStatuses (f : FileEntry) : List Status :=
  f.chunks.map fun c => c.status

/-- Decision of one poll of `checkAllChunksUploaded`. -/
inductive JoinDecision
  | merge
  | fail
  | wait
  deriving DecidableEq, Repr

/-- One poll of `checkAllChunksUploaded`: if every chunk is `success`
merge; else if some chunk is `error` fail; else keep waiting.  The
all-success test is the first branch, exactly as in the source. -/
def checkChunksOnce (ts : List Status) : JoinDecision :=
  if ts.all fun s => decide (s = Status.success) then JoinDecision.merge
  else if ts.any fun s => decide (s = Status.error) then JoinDecision.fail
  else JoinDecision.wait

/-- Effect of one poll on the file: the merge branch invokes
`mergeChunks` (third component true); the fail branch sets the file
status to `error` and emits `upload-error`; the wait branch does
nothing. -/
def checkTickEffect (f : FileEntry) : FileEntry × List UploadEvent × Bool :=
  match checkChunksOnce (chunkStatuses f) with
  | JoinDecision.merge => (f, [], true)
  | JoinDecision.fail =>
      ({ f with status := Status.error }, [UploadEvent.uploadError], false)
  | JoinDecision.wait => (f, [], false)

/-- Terminal result of the polling loop. -/
inductive JoinResult
  | merged
  | failed
  deriving DecidableEq, Repr

/-- The polling loop of `checkAllChunksUploaded` over the successive
sampled status vectors: the first decisive poll wins and the interval
is cleared. -/
def checkAllChunksUploaded : List (List Status) → Option JoinResult
  | [] => none
  | t :: rest =>
      match checkChunksOnce t with
      | JoinDecision.merge => some JoinResult.merged
      | JoinDecision.fail => some JoinResult.failed
      | JoinDecision.wait => checkAllChunksUploaded rest

/-- Reachability order of the chunk status transitions of the source
within one attempt: `uploadChunk` moves `waiting` to `uploading` at
dispatch, and the settle handlers move `uploading` to `success` or
`error`; nothing else writes a chunk status until a retry starts a new
attempt.  `statusLE a b` holds when `b` is reachable from `a`. -/
def statusLE : Status → Status → Bool
  | Status.waiting, _ => true
  | Status.uploading, Status.uploading => true
  | Status.uploading, Status.success => true
  | Status.uploading, Status.error => true
  | Status.success, Status.success => true
  | Status.error, Status.error => true
  | _, _ => false

/-- Two successive samples of the same chunk set: same length and each
chunk status has only moved along the transition order. -/
def tickLE (a b : List Status) : Prop :=
  a.length = b.length ∧
    ∀ i (ha : i < a.length) (hb : i < b.length),
      statusLE a[i] b[i] = true

/-- A valid polling trace of one attempt: successive samples are
related by `tickLE`. -/
def ValidTrace (trace : List (List Status)) : Prop :=
  List.Chain' tickLE trace

/-- Every sampled status is `success`. -/
def allSuccess (t : List Status) : Prop :=
  ∀ s ∈ t, s = Status.success

/-- Some sampled status is `error`. -/
def hasError (t : List Status) : Prop :=
  ∃ s ∈ t, s = Status.error

/-- A fresh `fileList` entry as pushed by `validateAndAddFiles`:
`{ raw, name, size, type, status: waiting, progress: 0, chunks: [] }`. -/
def admitEntry (f : RawFile) : FileEntry :=
  { raw := f
    name := f.name
    size := f.size
    type := f.type
    status := Status.waiting
    progress := 0
    chunks := [] }

/-- The `ElMessage.error` text issued for an oversize file. -/
def oversizeMsg (maxSizeMB : Nat) (f : RawFile) : String :=
  "文件 " ++ f.name ++ " 超过最大大小限制 " ++ toString maxSizeMB ++ "MB"

/-- The admission loop of `validateAndAddFiles`: a file whose size
exceeds `maxSize * 1024 * 1024` bytes only produces a notification and
is skipped; every other file is pushed onto `fileList` as a fresh
waiting entry.  Returns the final list and the notifications. -/
def validateAndAddFiles (maxSizeMB : Nat) (files : List RawFile)
    (fileList : List FileEntry) : List FileEntry × List String :=
  match files with
  | [] => (fileList, [])
  | f :: rest =>
      if maxSizeMB * 1024 * 1024 < f.size then
        let r := validateAndAddFiles maxSizeMB rest fileList
        (r.1, oversizeMsg maxSizeMB f :: r.2)
      else
        validateAndAddFiles maxSizeMB rest (fileList ++ [admitEntry f])

/-- `startUpload` runs `uploadFile` exactly for the queued entries with
status `waiting` or `error`. -/
def startUploadTargets (fl : List FileEntry) : List FileEntry :=
  fl.filter fun f =>
    decide (f.status = Status.waiting) || decide (f.status = Status.error)

/-- Create failure condition: fetch transport error or a non-2xx HTTP
status (so `response.ok` is false). -/
def createFailed (resp : Option (Nat × String)) : Prop :=
  match resp with
  | none => True
  | some (st, _) => st < 200 ∨ 300 ≤ st

/-- Sample successful chunk of a 10-byte file split at 4 bytes. -/
def chunkOk : Chunk :=
  { index := 0, start := 0, «end» := 4, progress := 100, status := Status.success }

/-- Sample failed chunk. -/
def chunkBad : Chunk :=
  { index := 1, start := 4, «end» := 8, progress := 55, status := Status.error }

/-- Sample chunk still in flight. -/
def chunkRun : Chunk :=
  { index := 2, start := 8, «end» := 10, progress := 10, status := Status.uploading }

/-- Sample raw browser file. -/
def rawA : RawFile :=
  { name := "a", size := 10, lastModified := 7, type := "text" }

/-- Sample uploading session whose chunk 1 has failed. -/
def fileErr : FileEntry :=
  { raw := rawA
    name := "a"
    size := 10
    type := "text"
    status := Status.uploading
    progress := 55
    chunks := [chunkOk, chunkBad, chunkRun]
    identifier := "a_10_7" }

/-- Sample registry holding two live handles for the sample session. -/
def regSample : Registry :=
  fun k => if k = "a_10_7" then some [3, 7] else none

/-- Pointwise comparison of two chunk lists by progress. -/
def progressLE (l1 l2 : List Chunk) : Prop :=
  List.Forall₂ (fun a b => a.progress ≤ b.progress) l1 l2

/-- Sample uploading session with chunk progresses 100, 0, 0 over
uneven byte ranges. -/
def fileProg : FileEntry :=
  { raw := rawA
    name := "a"
    size := 10
    type := "text"
    status := Status.uploading
    progress := 33
    chunks :=
      [{ index := 0, start := 0, «end» := 4, progress := 100,
         status := Status.success },
       { index := 1, start := 4, «end» := 8, progress := 0,
         status := Status.waiting },
       { index := 2, start := 8, «end» := 10, progress := 0,
         status := Status.waiting }]
    identifier := "a_10_7" }

/-- Sample oversize raw file: 6 MB, to be checked against a 5 MB
limit. -/
def rawBig : RawFile :=
  { name := "b", size := 6291456, lastModified := 2, type := "text" }

/-- Sample zero-byte raw file. -/
def rawZero : RawFile :=
  { name := "z", size := 0, lastModified := 1, type := "text" }

/-- Sample session for the zero-byte file: its chunk plan is empty. -/
def fileZero : FileEntry :=
  { raw := rawZero
    name := "z"
    size := 0
    type := "text"
    status := Status.uploading
    progress := 0
    chunks := []
    identifier := "z_0_1" }

/-- The chunk-plan specification of claim C1 stated over the embedding:
count is the mathematical ceiling of size over chunk size, the entries
are indexed contiguously with the half-open ranges of the source, every
byte below the size lies in exactly one chunk range, and every chunk
except the last has length exactly the chunk size. -/
def planSpec (s c : Nat) : Prop :=
  ((planChunks s c).length = ⌈(s : ℚ) / (c : ℚ)⌉₊)
  ∧ (∀ i (hi : i < (planChunks s c).length),
      ((planChunks s c).get ⟨i, hi⟩).index = i
      ∧ ((planChunks s c).get ⟨i, hi⟩).start = i * c
      ∧ ((planChunks s c).get ⟨i, hi⟩).«end» = min ((i + 1) * c) s)
  ∧ (∀ b, b < s → ∃ i, ∃ hi : i < (planChunks s c).length,
      (((planChunks s c).get ⟨i, hi⟩).start ≤ b
        ∧ b < ((planChunks s c).get ⟨i, hi⟩).«end»)
      ∧ ∀ j (hj : j < (planChunks s c).length),
          ((planChunks s c).get ⟨j, hj⟩).start ≤ b →
          b < ((planChunks s c).get ⟨j, hj⟩).«end» → j = i)
  ∧ (∀ i (hi : i < (planChunks s c).length), i + 1 < (planChunks s c).length →
      ((planChunks s c).get ⟨i, hi⟩).«end»
        - ((planChunks s c).get ⟨i, hi⟩).start = c)

/-- Arithmetic bound: the size never exceeds count times chunk size. -/
theorem le_chunkCount_mul (s c : Nat) (hc : 0 < c) :
    s ≤ chunkCount s c * c := by
  by_contra h
  push_neg at h
  have hstep : (chunkCount s c + 1) * c = chunkCount s c * c + c :=
    Nat.succ_mul _ _
  have h1 : (chunkCount s c + 1) * c ≤ s + c - 1 := by omega
  have h2 : chunkCount s c + 1 ≤ (s + c - 1) / c :=
    (Nat.le_div_iff_mul_le hc).mpr h1
  unfold chunkCount at h2
  omega

/-- The chunk count is positive for a positive size. -/
theorem chunkCount_pos (s c : Nat) (hs : 0 < s) (hc : 0 < c) :
    0 < chunkCount s c := by
  have h1 : 1 * c ≤ s + c - 1 := by omega
  have h2 : 1 ≤ (s + c - 1) / c := (Nat.le_div_iff_mul_le hc).mpr h1
  unfold chunkCount
  omega

/-- Arithmetic bound: one fewer chunk would not reach the size. -/
theorem pred_chunkCount_mul_lt (s c : Nat) (hs : 0 < s) (hc : 0 < c) :
    (chunkCount s c - 1) * c < s := by
  have hn := chunkCount_pos s c hs hc
  by_contra h
  push_neg at h
  have hstep : (chunkCount s c - 1 + 1) * c = (chunkCount s c - 1) * c + c :=
    Nat.succ_mul _ _
  have hn1 : chunkCount s c - 1 + 1 = chunkCount s c := by omega
  rw [hn1] at hstep
  have h1 : s + c - 1 < chunkCount s c * c := by omega
  have h2 : (s + c - 1) / c < chunkCount s c :=
    (Nat.div_lt_iff_lt_mul hc).mpr h1
  unfold chunkCount at h2
  omega

/-- The natural chunk count agrees with the rational ceiling. -/
theorem chunkCount_eq_ceil (s c : Nat) (hs : 0 < s) (hc : 0 < c) :
    chunkCount s c = ⌈(s : ℚ) / (c : ℚ)⌉₊ := by
  have h1 := le_chunkCount_mul s c hc
  have h2 := pred_chunkCount_mul_lt s c hs hc
  have hn := chunkCount_pos s c hs hc
  have hcq : (0 : ℚ) < (c : ℚ) := by exact_mod_cast hc
  symm
  rw [Nat.ceil_eq_iff (by omega)]
  constructor
  · rw [lt_div_iff₀ hcq]
    have hcast : ((chunkCount s c - 1 : Nat) : ℚ) * (c : ℚ) < (s : ℚ) := by
      exact_mod_cast h2
    exact hcast
  · rw [div_le_iff₀ hcq]
    exact_mod_cast h1

/-- Length of the planned chunk list. -/
theorem planChunks_length (s c : Nat) :
    (planChunks s c).length = chunkCount s c := by
  simp [planChunks]

/-- Entry of the planned chunk list. -/
theorem planChunks_get (s c : Nat) {i : Nat}
    (hi : i < (planChunks s c).length) :
    (planChunks s c).get ⟨i, hi⟩ =
      { index := i
        start := i * c
        «end» := min ((i + 1) * c) s
        progress := 0
        status := Status.waiting } := by
  simp [planChunks, List.get_eq_getElem]

/-- C1: for every file of size s > 0 and configured chunk size c > 0,
the chunk plan is an ordered list of ceil(s/c) chunks with 0-based
contiguous indexes whose half-open ranges [i*c, min((i+1)*c, s)) cover
[0, s) with no gaps and no overlaps, and every chunk except the last
has length exactly c. -/
theorem planChunks_spec (s c : Nat) (hs : 0 < s) (hc : 0 < c) :
    planSpec s c := by
  refine ⟨?_, ?_, ?_, ?_⟩
  · rw [planChunks_length, chunkCount_eq_ceil s c hs hc]
  · intro i hi
    rw [planChunks_get s c hi]
    exact ⟨rfl, rfl, rfl⟩
  · intro b hb
    have hlen := planChunks_length s c
    have hbc : b / c < chunkCount s c := by
      apply (Nat.div_lt_iff_lt_mul hc).mpr
      exact lt_of_lt_of_le hb (le_chunkCount_mul s c hc)
    refine ⟨b / c, by omega, ?_, ?_⟩
    · rw [planChunks_get s c (by omega)]
      refine ⟨Nat.div_mul_le_self b c, ?_⟩
      simp only [lt_min_iff]
      exact ⟨(Nat.div_lt_iff_lt_mul hc).mp (Nat.lt_succ_self (b / c)), hb⟩
    · intro j hj hstart hend
      rw [planChunks_get s c hj] at hstart hend
      simp only [lt_min_iff] at hend
      have hup : b < (j + 1) * c := hend.1
      have h1 : j ≤ b / c := (Nat.le_div_iff_mul_le hc).mpr hstart
      have h2 : b / c < j + 1 := (Nat.div_lt_iff_lt_mul hc).mpr hup
      omega
  · intro i hi hlast
    rw [planChunks_get s c hi]
    show min ((i + 1) * c) s - i * c = c
    have hlen := planChunks_length s c
    have hcc : i + 1 < chunkCount s c := by omega
    have hle : (i + 1) * c ≤ (chunkCount s c - 1) * c :=
      Nat.mul_le_mul_right c (by omega)
    have hlt : (i + 1) * c < s :=
      lt_of_le_of_lt hle (pred_chunkCount_mul_lt s c hs hc)
    rw [min_eq_left (le_of_lt hlt)]
    have hstep : (i + 1) * c = i * c + c := Nat.succ_mul _ _
    omega

/-- Concrete instance of C1 (a 12-byte file with 5-byte chunks). -/
theorem planChunks_spec_witness : planSpec 12 5 :=
  planChunks_spec 12 5 (by decide) (by decide)

/-- The all-success test of one poll, as a proposition. -/
theorem all_success_iff (t : List Status) :
    ((t.all fun s => decide (s = Status.success)) = true) ↔ allSuccess t := by
  simp [List.all_eq_true, allSuccess]

/-- The any-error test of one poll, as a proposition. -/
theorem any_error_iff (t : List Status) :
    ((t.any fun s => decide (s = Status.error)) = true) ↔ hasError t := by
  simp [List.any_eq_true, hasError]

/-- One poll merges exactly when every chunk is success. -/
theorem checkChunksOnce_merge_iff (t : List Status) :
    checkChunksOnce t = JoinDecision.merge ↔ allSuccess t := by
  rw [← all_success_iff]
  unfold checkChunksOnce
  split_ifs with h1 h2 <;> simp [h1]

/-- One poll that sees an errored chunk fails the session. -/
theorem checkChunksOnce_fail_of_hasError (t : List Status) (h : hasError t) :
    checkChunksOnce t = JoinDecision.fail := by
  obtain ⟨s, hs, hse⟩ := h
  have hall : ¬ ((t.all fun u => decide (u = Status.success)) = true) := by
    rw [all_success_iff]
    intro hall
    have hcontra := hall s hs
    rw [hse] at hcontra
    exact Status.noConfusion hcontra
  have hany : (t.any fun u => decide (u = Status.error)) = true :=
    (any_error_iff t).mpr ⟨s, hs, hse⟩
  unfold checkChunksOnce
  rw [if_neg hall, if_pos hany]

/-- Success is terminal in the status transition order. -/
theorem statusLE_success_eq {x : Status}
    (h : statusLE Status.success x = true) : x = Status.success := by
  cases x <;> simp_all [statusLE]

/-- Error is terminal in the status transition order. -/
theorem statusLE_error_eq {x : Status}
    (h : statusLE Status.error x = true) : x = Status.error := by
  cases x <;> simp_all [statusLE]

/-- All-success persists to any later sample of the same chunk set. -/
theorem allSuccess_mono {a b : List Status} (h : tickLE a b)
    (ha : allSuccess a) : allSuccess b := by
  obtain ⟨hlen, hpt⟩ := h
  intro s hs
  obtain ⟨i, hib, hget⟩ := List.mem_iff_getElem.mp hs
  have hia : i < a.length := by omega
  have hle := hpt i hia hib
  have has := ha _ (List.getElem_mem hia)
  rw [has] at hle
  rw [← hget]
  exact statusLE_success_eq hle

/-- An observed error persists to any later sample of the same chunk
set. -/
theorem hasError_mono {a b : List Status} (h : tickLE a b)
    (ha : hasError a) : hasError b := by
  obtain ⟨hlen, hpt⟩ := h
  obtain ⟨s, hs, hse⟩ := ha
  obtain ⟨i, hia, hget⟩ := List.mem_iff_getElem.mp hs
  have hib : i < b.length := by omega
  have hle := hpt i hia hib
  rw [hget, hse] at hle
  exact ⟨b[i], List.getElem_mem hib, statusLE_error_eq hle⟩

/-- All-success at the head of a valid trace persists through the whole
trace. -/
theorem allSuccess_of_chain (t : List Status) (ts : List (List Status))
    (hch : List.Chain' tickLE (t :: ts)) (hall : allSuccess t) :
    ∀ u ∈ ts, allSuccess u := by
  induction ts generalizing t with
  | nil =>
      intro u hu
      exact absurd hu (List.not_mem_nil u)
  | cons v vs ih =>
      intro u hu
      have h1 : tickLE t v := (List.chain'_cons.mp hch).1
      have h2 : List.Chain' tickLE (v :: vs) := (List.chain'_cons.mp hch).2
      have hv : allSuccess v := allSuccess_mono h1 hall
      rcases List.mem_cons.mp hu with rfl | hu2
      · exact hv
      · exact ih v h2 hv u hu2

/-- Along a valid polling trace in which some poll sees an errored
chunk, the loop never signals merge. -/
theorem checkAll_ne_merged :
    ∀ trace : List (List Status), ValidTrace trace →
      (∃ t ∈ trace, hasError t) →
      checkAllChunksUploaded trace ≠ some JoinResult.merged := by
  intro trace
  induction trace with
  | nil =>
      intro _ herr
      obtain ⟨t, ht, _⟩ := herr
      exact absurd ht (List.not_mem_nil t)
  | cons t ts ih =>
      intro hch herr
      cases hm : checkChunksOnce t with
      | merge =>
          exfalso
          have hall : allSuccess t := (checkChunksOnce_merge_iff t).mp hm
          obtain ⟨u, hu, herr2⟩ := herr
          rcases List.mem_cons.mp hu with rfl | hu2
          · obtain ⟨s, hs, hse⟩ := herr2
            have hcontra := hall s hs
            rw [hse] at hcontra
            exact Status.noConfusion hcontra
          · have hu3 := allSuccess_of_chain t ts hch hall u hu2
            obtain ⟨s, hs, hse⟩ := herr2
            have hcontra := hu3 s hs
            rw [hse] at hcontra
            exact Status.noConfusion hcontra
      | fail =>
          simp [checkAllChunksUploaded, hm]
      | wait =>
          have hres : checkAllChunksUploaded (t :: ts)
              = checkAllChunksUploaded ts := by
            simp [checkAllChunksUploaded, hm]
          rw [hres]
          rcases ts with _ | ⟨v, vs⟩
          · simp [checkAllChunksUploaded]
          · apply ih (List.chain'_cons.mp hch).2
            obtain ⟨u, hu, herr2⟩ := herr
            rcases List.mem_cons.mp hu with rfl | hu2
            · exact ⟨v, List.mem_cons_self v vs,
                hasError_mono (List.chain'_cons.mp hch).1 herr2⟩
            · exact ⟨u, hu2, herr2⟩

/-- C2: the merge branch of the join check fires only when every chunk
of the session is success; a poll that sees an errored chunk sets the
session status to error, emits upload-error and does not merge; and
along any valid polling trace of one attempt in which some poll sees an
errored chunk, the loop never signals merge, so the complete call is
never issued for that attempt. -/
theorem checkAllChunksUploaded_spec :
    (∀ f : FileEntry,
        ((checkTickEffect f).2.2 = true →
          ∀ ch ∈ f.chunks, ch.status = Status.success)
        ∧ ((∃ ch ∈ f.chunks, ch.status = Status.error) →
            (checkTickEffect f).1.status = Status.error
            ∧ (checkTickEffect f).2.1 = [UploadEvent.uploadError]
            ∧ (checkTickEffect f).2.2 = false))
    ∧ ∀ trace : List (List Status), ValidTrace trace →
        (∃ t ∈ trace, hasError t) →
        checkAllChunksUploaded trace ≠ some JoinResult.merged := by
  constructor
  · intro f
    constructor
    · intro hmerge ch hch
      unfold checkTickEffect at hmerge
      cases hm : checkChunksOnce (chunkStatuses f) with
      | merge =>
          have hall := (checkChunksOnce_merge_iff _).mp hm
          exact hall ch.status (List.mem_map_of_mem _ hch)
      | fail =>
          rw [hm] at hmerge
          simp at hmerge
      | wait =>
          rw [hm] at hmerge
          simp at hmerge
    · intro hex
      obtain ⟨ch, hch, hche⟩ := hex
      have herr : hasError (chunkStatuses f) :=
        ⟨ch.status, List.mem_map_of_mem _ hch, hche⟩
      have hm := checkChunksOnce_fail_of_hasError _ herr
      unfold checkTickEffect
      rw [hm]
      exact ⟨rfl, rfl, rfl⟩
  · exact checkAll_ne_merged

/-- Concrete instance of C2: the sample session with a failed chunk is
driven to error with an upload-error emission and no merge. -/
theorem checkAllChunksUploaded_spec_witness :
    (checkTickEffect fileErr).1.status = Status.error
    ∧ (checkTickEffect fileErr).2.1 = [UploadEvent.uploadError]
    ∧ (checkTickEffect fileErr).2.2 = false :=
  (checkAllChunksUploaded_spec.1 fileErr).2 ⟨chunkBad, by decide, by decide⟩

/-- C3: cancelling an uploading session aborts exactly the handles
registered under its identifier, resets that registry slot to the empty
array (no residual handle for the identifier), and sets the session to
the retryable error state with aggregate progress 0. -/
theorem cancelUpload_spec (reg : Registry) (f : FileEntry) (hs : List Nat)
    (h1 : f.status = Status.uploading) (h2 : reg f.identifier = some hs) :
    (cancelUpload reg f).2.2 = hs
    ∧ (cancelUpload reg f).1 f.identifier = some []
    ∧ (cancelUpload reg f).2.1.status = Status.error
    ∧ (cancelUpload reg f).2.1.progress = 0 := by
  unfold cancelUpload
  rw [if_pos h1, h2]
  exact ⟨rfl, by simp, rfl, rfl⟩

/-- Concrete instance of C3: cancelling the sample session aborts both
live handles and flushes its registry slot. -/
theorem cancelUpload_spec_witness :
    (cancelUpload regSample fileErr).2.2 = [3, 7]
    ∧ (cancelUpload regSample fileErr).1 "a_10_7" = some []
    ∧ (cancelUpload regSample fileErr).2.1.status = Status.error
    ∧ (cancelUpload regSample fileErr).2.1.progress = 0 :=
  cancelUpload_spec regSample fileErr [3, 7] (by decide) (by decide)

/-- C4 fails on the code: the source installs no XHR abort handler, so
an externally aborted chunk transfer leaves the chunk status as it was
(here `uploading`); the chunk is not marked error. -/
theorem uploadChunkSettle_abort_cex :
    ¬ (uploadChunkSettle chunkRun TransferOutcome.aborted).1.status
        = Status.error := by
  decide

/-- C4 amended: an externally aborted chunk transfer runs neither
installed settle handler, so the chunk record is unchanged (its status
is not marked error) and the transfer does not deregister its handle;
the session itself is marked error directly by `cancelUpload`. -/
theorem uploadChunkSettle_abort_spec :
    (∀ c : Chunk,
        (uploadChunkSettle c TransferOutcome.aborted).1 = c
        ∧ (uploadChunkSettle c TransferOutcome.aborted).2 = false)
    ∧ ∀ (reg : Registry) (f : FileEntry), f.status = Status.uploading →
        (cancelUpload reg f).2.1.status = Status.error := by
  constructor
  · intro c
    exact ⟨rfl, rfl⟩
  · intro reg f h
    unfold cancelUpload
    rw [if_pos h]
    rcases hr : reg f.identifier with _ | hs <;> simp [hr]

/-- Concrete instance of the amended C4: cancelling the sample session
marks the session error even though the aborted chunk keeps its
status. -/
theorem uploadChunkSettle_abort_spec_witness :
    (cancelUpload regSample fileErr).2.1.status = Status.error :=
  uploadChunkSettle_abort_spec.2 regSample fileErr (by decide)

/-- Every chunk of a freshly planned list is waiting at progress 0. -/
theorem planChunks_fresh (s c : Nat) :
    ∀ ch ∈ planChunks s c, ch.status = Status.waiting ∧ ch.progress = 0 := by
  intro ch hch
  obtain ⟨i, _, rfl⟩ := List.mem_map.mp hch
  exact ⟨rfl, rfl⟩

/-- C5: retrying an errored session resets every chunk to waiting with
progress 0 (both in the explicit reset and in the re-planned chunk
list), resets the aggregate progress to 0, and the new attempt issues
the create call as its first call, before any chunk call. -/
theorem retryUpload_spec (chunkSizeMB : Nat) (reg : Registry)
    (f : FileEntry) :
    (∀ c ∈ chunkResets f.chunks, c.status = Status.waiting ∧ c.progress = 0)
    ∧ (∀ c ∈ (retryUpload chunkSizeMB reg f).2.chunks,
        c.status = Status.waiting ∧ c.progress = 0)
    ∧ (retryUpload chunkSizeMB reg f).2.progress = 0
    ∧ ∀ resp, ∃ rest,
        (uploadChunks (retryUpload chunkSizeMB reg f).2 resp).2.1 =
          ApiCall.create (retryUpload chunkSizeMB reg f).2.chunks.length
            :: rest := by
  refine ⟨?_, ?_, rfl, ?_⟩
  · intro c hc
    obtain ⟨c0, _, rfl⟩ := List.mem_map.mp hc
    exact ⟨rfl, rfl⟩
  · intro c hc
    exact planChunks_fresh _ _ c hc
  · intro resp
    unfold uploadChunks
    cases hr : createUploadTask resp with
    | ok uid => exact ⟨_, rfl⟩
    | error e => exact ⟨[], rfl⟩

/-- Concrete instance of C5: retrying the sample errored session leaves
aggregate progress 0 and puts the create call first in the new
attempt. -/
theorem retryUpload_spec_witness :
    (retryUpload 5 regSample fileErr).2.progress = 0
    ∧ ∃ rest,
        (uploadChunks (retryUpload 5 regSample fileErr).2
            (some (200, "u"))).2.1
          = ApiCall.create ((retryUpload 5 regSample fileErr).2.chunks.length)
              :: rest :=
  ⟨(retryUpload_spec 5 regSample fileErr).2.2.1,
   (retryUpload_spec 5 regSample fileErr).2.2.2 (some (200, "u"))⟩

/-- C6: a failing create call (non-2xx response or transport error)
drives the session directly to error, emits upload-error, and the
attempt issues no chunk call (the create call is its only call). -/
theorem uploadChunks_createFail_spec (f : FileEntry)
    (resp : Option (Nat × String)) (h : createFailed resp) :
    (uploadChunks f resp).1.status = Status.error
    ∧ (uploadChunks f resp).2.1 = [ApiCall.create f.chunks.length]
    ∧ (uploadChunks f resp).2.2 = [UploadEvent.uploadError]
    ∧ ∀ i, ApiCall.chunk i ∉ (uploadChunks f resp).2.1 := by
  have herr : ∃ e, createUploadTask resp = Except.error e := by
    rcases resp with _ | ⟨st, body⟩
    · exact ⟨_, rfl⟩
    · simp only [createFailed] at h
      refine ⟨"创建上传任务失败，状态码：" ++ toString st, ?_⟩
      simp only [createUploadTask]
      rw [if_neg (by omega)]
  obtain ⟨e, he⟩ := herr
  unfold uploadChunks
  rw [he]
  refine ⟨rfl, rfl, rfl, ?_⟩
  intro i hmem
  simp at hmem

/-- Concrete instance of C6: an HTTP 500 on create fails the sample
session with no chunk call. -/
theorem uploadChunks_createFail_spec_witness :
    (uploadChunks fileErr (some (500, "x"))).1.status = Status.error
    ∧ (uploadChunks fileErr (some (500, "x"))).2.1
        = [ApiCall.create fileErr.chunks.length]
    ∧ (uploadChunks fileErr (some (500, "x"))).2.2
        = [UploadEvent.uploadError]
    ∧ ∀ i, ApiCall.chunk i ∉ (uploadChunks fileErr (some (500, "x"))).2.1 :=
  uploadChunks_createFail_spec fileErr (some (500, "x"))
    (Or.inr (by omega))

/-- C7 fails on the code as literally stated: with chunk progresses
100, 0, 0 the source computes Math.round(100/3) = 33, which is not
equal to the exact unweighted arithmetic mean 100/3. -/
theorem updateFileProgress_mean_cex :
    ¬ (((updateFileProgress fileProg).1.progress : ℚ)
        = (((fileProg.chunks.map fun c => c.progress).sum : ℕ) : ℚ)
            / (fileProg.chunks.length : ℚ)) := by
  intro heq
  norm_num [updateFileProgress, fileProgressOf, fileProg] at heq

/-- The natural-division encoding of the aggregate equals the floor of
the mean plus one half, which is exactly Math.round of the mean. -/
theorem fileProgressOf_eq_round (l : List Chunk) (h : l ≠ []) :
    fileProgressOf l
      = ⌊(((l.map fun c => c.progress).sum : ℕ) : ℚ) / (l.length : ℚ) + 1 / 2⌋₊ := by
  have hn : 0 < l.length := List.length_pos.mpr h
  have hnq : ((l.length : ℚ)) ≠ 0 := by
    exact_mod_cast Nat.pos_iff_ne_zero.mp hn
  have hq : ∀ S n : Nat, n ≠ 0 →
      ((S : ℚ) / (n : ℚ) + 1 / 2
        = ((2 * S + n : ℕ) : ℚ) / ((2 * n : ℕ) : ℚ)) := by
    intro S n hn0
    have hq0 : ((n : ℚ)) ≠ 0 := by exact_mod_cast hn0
    push_cast
    field_simp
    ring
  rw [hq _ _ (by omega), Nat.floor_div_eq_div]
  rfl

/-- C7 amended: on every chunk progress tick the aggregate is
recomputed as the unweighted arithmetic mean of the chunk progress
percentages rounded half-up to an integer (Math.round), it depends only
on the progress vector and not on the chunk byte lengths, and the
recomputed value is surfaced to the host through an upload-progress
event. -/
theorem updateFileProgress_spec (f : FileEntry) (h : f.chunks ≠ []) :
    ((updateFileProgress f).1.progress = fileProgressOf f.chunks)
    ∧ ((updateFileProgress f).2
        = [UploadEvent.uploadProgress (fileProgressOf f.chunks)])
    ∧ (fileProgressOf f.chunks
        = ⌊(((f.chunks.map fun c => c.progress).sum : ℕ) : ℚ)
            / (f.chunks.length : ℚ) + 1 / 2⌋₊)
    ∧ (∀ idx pct, (onProgressTick f idx pct).2
        = [UploadEvent.uploadProgress
            (fileProgressOf (setChunkProgress f.chunks idx pct))])
    ∧ ∀ l2 : List Chunk,
        (l2.map fun c => c.progress) = (f.chunks.map fun c => c.progress) →
        fileProgressOf l2 = fileProgressOf f.chunks := by
  refine ⟨rfl, rfl, fileProgressOf_eq_round f.chunks h,
    fun idx pct => rfl, ?_⟩
  intro l2 h2
  have hlen : l2.length = f.chunks.length := by
    have hmap := congrArg List.length h2
    simpa using hmap
  unfold fileProgressOf
  rw [h2, hlen]

/-- Concrete instance of the amended C7: the sample with progresses
100, 0, 0 aggregates to the rounded mean. -/
theorem updateFileProgress_spec_witness :
    (updateFileProgress fileProg).1.progress = fileProgressOf fileProg.chunks
    ∧ fileProgressOf fileProg.chunks
        = ⌊(((fileProg.chunks.map fun c => c.progress).sum : ℕ) : ℚ)
            / (fileProg.chunks.length : ℚ) + 1 / 2⌋₊ :=
  ⟨(updateFileProgress_spec fileProg (by decide)).1,
   (updateFileProgress_spec fileProg (by decide)).2.2.1⟩

/-- Progress sums are monotone under pointwise comparison. -/
theorem sum_progress_le {l1 l2 : List Chunk} (h : progressLE l1 l2) :
    (l1.map fun c => c.progress).sum ≤ (l2.map fun c => c.progress).sum := by
  induction h with
  | nil => simp
  | cons hab htail ih =>
      simp only [List.map_cons, List.sum_cons]
      omega

/-- C8: the aggregate progress function is monotone in the chunk
progress vector (componentwise larger vectors of the same length give a
larger aggregate); a successful merge sets the aggregate to 100, and
cancel and retry reset it to 0. -/
theorem fileProgress_monotone_spec :
    (∀ l1 l2 : List Chunk, progressLE l1 l2 →
        fileProgressOf l1 ≤ fileProgressOf l2)
    ∧ (∀ (f : FileEntry) (u : String),
        (mergeChunksSettle f (some u)).1.progress = 100)
    ∧ (∀ (reg : Registry) (f : FileEntry), f.status = Status.uploading →
        (cancelUpload reg f).2.1.progress = 0)
    ∧ (∀ (chunkSizeMB : Nat) (reg : Registry) (f : FileEntry),
        (retryUpload chunkSizeMB reg f).2.progress = 0) := by
  refine ⟨?_, fun f u => rfl, ?_, fun m reg f => rfl⟩
  · intro l1 l2 h
    have hlen : l1.length = l2.length := h.length_eq
    have hsum := sum_progress_le h
    unfold fileProgressOf
    rw [hlen]
    exact Nat.div_le_div_right (by omega)
  · intro reg f h
    unfold cancelUpload
    rw [if_pos h]
    rcases hr : reg f.identifier with _ | hs <;> simp [hr]

/-- Concrete instance of C8: the sample progress vectors compare, and
cancelling the sample session resets its aggregate to 0. -/
theorem fileProgress_monotone_spec_witness :
    fileProgressOf fileProg.chunks ≤ fileProgressOf fileErr.chunks
    ∧ (cancelUpload regSample fileErr).2.1.progress = 0 :=
  ⟨fileProgress_monotone_spec.1 fileProg.chunks fileErr.chunks
      (by simp [progressLE, fileProg, fileErr, chunkOk, chunkBad, chunkRun,
        List.forall₂_cons]),
   fileProgress_monotone_spec.2.2.1 regSample fileErr (by decide)⟩

/-- The admission loop appends exactly the entries of the files within
the size limit, in order. -/
theorem validateAndAddFiles_list (maxSizeMB : Nat) :
    ∀ (files : List RawFile) (fileList : List FileEntry),
      (validateAndAddFiles maxSizeMB files fileList).1
        = fileList ++
            (files.filter fun f =>
              decide (f.size ≤ maxSizeMB * 1024 * 1024)).map admitEntry := by
  intro files
  induction files with
  | nil =>
      intro fl
      simp [validateAndAddFiles]
  | cons f rest ih =>
      intro fl
      unfold validateAndAddFiles
      by_cases hf : maxSizeMB * 1024 * 1024 < f.size
      · rw [if_pos hf]
        show (validateAndAddFiles maxSizeMB rest fl).1 = _
        rw [ih fl]
        have hp : (decide (f.size ≤ maxSizeMB * 1024 * 1024)) = false := by
          simp
          omega
        simp [List.filter_cons, hp]
      · rw [if_neg hf]
        rw [ih (fl ++ [admitEntry f])]
        have hp : (decide (f.size ≤ maxSizeMB * 1024 * 1024)) = true := by
          simp
          omega
        simp [List.filter_cons, hp, List.append_assoc]

/-- The admission loop issues exactly one notification per oversize
file, in order. -/
theorem validateAndAddFiles_notifs (maxSizeMB : Nat) :
    ∀ (files : List RawFile) (fileList : List FileEntry),
      (validateAndAddFiles maxSizeMB files fileList).2
        = (files.filter fun f =>
            decide (maxSizeMB * 1024 * 1024 < f.size)).map
            (oversizeMsg maxSizeMB) := by
  intro files
  induction files with
  | nil =>
      intro fl
      simp [validateAndAddFiles]
  | cons f rest ih =>
      intro fl
      unfold validateAndAddFiles
      by_cases hf : maxSizeMB * 1024 * 1024 < f.size
      · rw [if_pos hf]
        show oversizeMsg maxSizeMB f
            :: (validateAndAddFiles maxSizeMB rest fl).2 = _
        rw [ih fl]
        have hp : (decide (maxSizeMB * 1024 * 1024 < f.size)) = true := by
          simpa using hf
        simp [List.filter_cons, hp]
      · rw [if_neg hf]
        rw [ih (fl ++ [admitEntry f])]
        have hp : (decide (maxSizeMB * 1024 * 1024 < f.size)) = false := by
          simpa using hf
        simp [List.filter_cons, hp]

/-- C9: admission appends exactly the files within the size limit as
fresh waiting entries at progress 0 with no chunks; each oversize file
yields exactly its notification and no queue entry; and no upload
session (hence no create, chunk or complete call) is ever started for
an entry of an oversize file, since `startUpload` only visits queue
entries. -/
theorem validateAndAddFiles_spec (maxSizeMB : Nat) (files : List RawFile)
    (fileList : List FileEntry) :
    ((validateAndAddFiles maxSizeMB files fileList).1
        = fileList ++
            (files.filter fun f =>
              decide (f.size ≤ maxSizeMB * 1024 * 1024)).map admitEntry)
    ∧ ((validateAndAddFiles maxSizeMB files fileList).2
        = (files.filter fun f =>
            decide (maxSizeMB * 1024 * 1024 < f.size)).map
            (oversizeMsg maxSizeMB))
    ∧ (∀ e ∈ (validateAndAddFiles maxSizeMB files fileList).1,
        e ∈ fileList ∨
          (e.raw.size ≤ maxSizeMB * 1024 * 1024 ∧ e.status = Status.waiting
            ∧ e.progress = 0 ∧ e.chunks = []))
    ∧ ∀ e ∈ startUploadTargets (validateAndAddFiles maxSizeMB files fileList).1,
        e ∈ fileList ∨ e.raw.size ≤ maxSizeMB * 1024 * 1024 := by
  have h3 : ∀ e ∈ (validateAndAddFiles maxSizeMB files fileList).1,
      e ∈ fileList ∨
        (e.raw.size ≤ maxSizeMB * 1024 * 1024 ∧ e.status = Status.waiting
          ∧ e.progress = 0 ∧ e.chunks = []) := by
    intro e he
    rw [validateAndAddFiles_list] at he
    rcases List.mem_append.mp he with h | h
    · exact Or.inl h
    · right
      obtain ⟨f, hf, rfl⟩ := List.mem_map.mp h
      have hsize := List.of_mem_filter hf
      simp only [decide_eq_true_eq] at hsize
      exact ⟨hsize, rfl, rfl, rfl⟩
  refine ⟨validateAndAddFiles_list _ _ _, validateAndAddFiles_notifs _ _ _,
    h3, ?_⟩
  intro e he
  have he2 : e ∈ (validateAndAddFiles maxSizeMB files fileList).1 :=
    List.mem_of_mem_filter he
  rcases h3 e he2 with h | h
  · exact Or.inl h
  · exact Or.inr h.1

/-- Concrete instance of C9: with a 5 MB limit, dropping a 6 MB file
and a small file enqueues only the small one and notifies only about
the oversize one. -/
theorem validateAndAddFiles_spec_witness :
    (validateAndAddFiles 5 [rawBig, rawA] []).1 = [admitEntry rawA]
    ∧ (validateAndAddFiles 5 [rawBig, rawA] []).2 = [oversizeMsg 5 rawBig] := by
  have h := validateAndAddFiles_spec 5 [rawBig, rawA] []
  refine ⟨?_, ?_⟩
  · rw [h.1]
    decide
  · rw [h.2.1]
    decide

/-- C10: a zero-size file plans an empty chunk list (the ceiling of 0
over the chunk size is 0), the create call of its attempt carries
chunks = 0 and is the only call of the upload phase (no chunk call),
the vacuous join check signals merge at once, and the complete call
carries total_chunks = 0. -/
theorem zeroSize_spec (c : Nat) (f : FileEntry)
    (hf : f.chunks = planChunks 0 c) :
    planChunks 0 c = []
    ∧ (∀ uid, uploadChunks f (some (200, uid))
        = ({ f with uploadId := some uid }, [ApiCall.create 0], []))
    ∧ checkChunksOnce (chunkStatuses f) = JoinDecision.merge
    ∧ (checkTickEffect f).2.2 = true
    ∧ mergeCall f = ApiCall.complete 0 := by
  have hcc : chunkCount 0 c = 0 := by
    unfold chunkCount
    rcases Nat.eq_zero_or_pos c with rfl | hc
    · simp
    · exact Nat.div_eq_of_lt (by omega)
  have hempty : planChunks 0 c = [] := by
    unfold planChunks
    rw [hcc]
    simp
  have hfe : f.chunks = [] := by rw [hf, hempty]
  have hmerge : checkChunksOnce (chunkStatuses f) = JoinDecision.merge := by
    simp [chunkStatuses, hfe, checkChunksOnce]
  refine ⟨hempty, ?_, hmerge, ?_, ?_⟩
  · intro uid
    simp [uploadChunks, createUploadTask, dispatchList, hfe]
  · unfold checkTickEffect
    rw [hmerge]
  · unfold mergeCall
    rw [hfe]
    rfl

/-- Concrete instance of C10 at the default 5 MB chunk size. -/
theorem zeroSize_spec_witness :
    planChunks 0 5242880 = []
    ∧ (∀ uid, uploadChunks fileZero (some (200, uid))
        = ({ fileZero with uploadId := some uid }, [ApiCall.create 0], []))
    ∧ checkChunksOnce (chunkStatuses fileZero) = JoinDecision.merge
    ∧ (checkTickEffect fileZero).2.2 = true
    ∧ mergeCall fileZero = ApiCall.complete 0 :=
  zeroSize_spec 5242880 fileZero (by decide)

end ChunkUpload
